import Mathlib

/-!
Verification development for the sidekick batching/codec core.

The repository ships the `sidekick` package interface through its example
notebook (`examples/autoencoder-exploration.ipynb`) and its spec; the package
implementation itself is not part of the given sources, so every component
below is modelled from the spec (§2-§7) and from the notebook's visible API
(`sidekick.Deployment(url, token)`, `feature_specs_in`, `feature_specs_out`,
`predict_lazy`, `next(predictions)['image']`).
-/

namespace Sidekick

/-- Modelled from the spec: §3 — the closed set of logical feature types
`{image, numeric, categorical, text, binary}` (the implementation's dynamic
dtype dispatch is absent from the sources). -/
inductive Dtype
  | image
  | numeric
  | categorical
  | text
  | binary
deriving DecidableEq, Repr

/-- Modelled from the spec: §3 — a FeatureSpec declares, per named feature, a
dtype and a shape (ordered sequence of positive integers); the concrete
`FeatureSpec` class is absent from the sources. -/
structure FeatureSpec where
  name : String
  dtype : Dtype
  shape : List Nat
deriving DecidableEq, Repr

/-- Number of scalar elements described by a shape. -/
def shapeSize (shape : List Nat) : Nat := shape.foldl (· * ·) 1

/-- Modelled from the spec: §3 — typed in-memory values, one variant per
dtype.  Image and binary values are flat lists of 8-bit samples, numeric
values use an exact (integer) scalar representation, categorical/text values
are strings. -/
inductive Value
  | image (pixels : List Nat)
  | numeric (xs : List Int)
  | categorical (s : String)
  | text (s : String)
  | binary (bs : List Nat)
deriving DecidableEq, Repr

/-- Modelled from the spec: §2 — the wire representation produced by the
codec; the real wire format is absent from the sources. -/
inductive WireValue
  | bytes (bs : List Nat)
  | numbers (xs : List Int)
  | str (s : String)
deriving DecidableEq, Repr

/-- Modelled from the spec: §7 error taxonomy — a caller-supplied record
violates a FeatureSpec. -/
inductive EncodingError
  | dtypeMismatch
  | shapeMismatch
  | sampleOutOfRange
  | missingFeature
deriving DecidableEq, Repr

/-- Modelled from the spec: §7 error taxonomy — a server-returned wire value
cannot be parsed into the expected type. -/
inductive DecodingError
  | malformed
deriving DecidableEq, Repr

/-- Modelled from the spec: §4.1 — `encode(value, spec)` validates the
value's dtype and shape against the spec and produces the wire form; fails
with `EncodingError` on any mismatch. -/
def encode (v : Value) (spec : FeatureSpec) : Except EncodingError WireValue :=
  match spec.dtype, v with
  | .image, .image ps =>
      if ps.length ≠ shapeSize spec.shape then .error .shapeMismatch
      else if ps.all (· < 256) then .ok (.bytes ps)
      else .error .sampleOutOfRange
  | .numeric, .numeric xs =>
      if xs.length = shapeSize spec.shape then .ok (.numbers xs)
      else .error .shapeMismatch
  | .categorical, .categorical s => .ok (.str s)
  | .text, .text s => .ok (.str s)
  | .binary, .binary bs =>
      if bs.all (· < 256) then .ok (.bytes bs)
      else .error .sampleOutOfRange
  | _, _ => .error .dtypeMismatch

/-- Modelled from the spec: §4.1 — `decode(wireValue, spec)` parses the wire
form back into a typed value, failing with `DecodingError` when the wire
value does not fit the spec. -/
def decode (w : WireValue) (spec : FeatureSpec) : Except DecodingError Value :=
  match spec.dtype, w with
  | .image, .bytes ps =>
      if ps.length = shapeSize spec.shape ∧ ps.all (· < 256) then .ok (.image ps)
      else .error .malformed
  | .numeric, .numbers xs =>
      if xs.length = shapeSize spec.shape then .ok (.numeric xs)
      else .error .malformed
  | .categorical, .str s => .ok (.categorical s)
  | .text, .str s => .ok (.text s)
  | .binary, .bytes bs =>
      if bs.all (· < 256) then .ok (.binary bs)
      else .error .malformed
  | _, _ => .error .malformed

/-- Modelled from the spec: §3 — a Record maps feature names to typed
values; represented as an ordered association list. -/
abbrev Record := List (String × Value)

/-- Modelled from the spec: §3 — the wire-ready form of one Record, one
encoded wire value per feature. -/
abbrev EncodedItem := List (String × WireValue)

/-- Modelled from the spec: §3-§4.1 — validate and encode one Record
against a FeatureSpecSet, feature by feature, failing with the first
`EncodingError`. -/
def encodeRecord (specs : List FeatureSpec) (r : Record) : Except EncodingError EncodedItem :=
  match specs with
  | [] => .ok []
  | spec :: rest =>
      match r.lookup spec.name with
      | none => .error .missingFeature
      | some v =>
          match encode v spec with
          | .error e => .error e
          | .ok w =>
              match encodeRecord rest r with
              | .error e => .error e
              | .ok ws => .ok ((spec.name, w) :: ws)

/-- Modelled from the spec: §4.1 — decode one wire item back into a typed
Record keyed by the output feature names. -/
def decodeRecord (specs : List FeatureSpec) (w : EncodedItem) : Except DecodingError Record :=
  match specs with
  | [] => .ok []
  | spec :: rest =>
      match w.lookup spec.name with
      | none => .error .malformed
      | some wv =>
          match decode wv spec with
          | .error e => .error e
          | .ok v =>
              match decodeRecord rest w with
              | .error e => .error e
              | .ok vs => .ok ((spec.name, v) :: vs)

/-- Modelled from the spec: §4.4 — encode a whole record list, stopping at
the first record that violates a FeatureSpec. -/
def encodeRecords (specs : List FeatureSpec) : List Record → Except EncodingError (List EncodedItem)
  | [] => .ok []
  | r :: rest =>
      match encodeRecord specs r with
      | .error e => .error e
      | .ok w =>
          match encodeRecords specs rest with
          | .error e => .error e
          | .ok ws => .ok (w :: ws)

/-- Modelled from the spec: §6 — the caller-facing configuration knobs.
Only `maxBatchSize` and `lookAheadWindow` influence the untimed model; the
two durations are carried as data because the model has no clock, and a
latency- or timeout-triggered flush is represented by an explicit flush
event. -/
structure Config where
  maxBatchSize : Nat
  maxWaitLatencyMs : Nat
  lookAheadWindow : Nat
  requestTimeoutMs : Nat
deriving DecidableEq, Repr

/-- Modelled from the spec: §3 — a PendingRequest pairs a monotonically
increasing sequence number with the encoded item; the resultSlot is
represented by the resolution functions below. -/
structure PendingRequest where
  id : Nat
  item : EncodedItem
deriving DecidableEq, Repr

/-- Modelled from the spec: §4.2 — the scheduler's queue of
queued-but-unsent requests plus the bookkeeping of batches already sent,
in send order. -/
structure SchedState where
  nextId : Nat
  queued : List PendingRequest
  sent : List (List PendingRequest)
deriving DecidableEq, Repr

/-- The scheduler's state at construction: nothing queued, nothing sent. -/
def initState : SchedState := ⟨0, [], []⟩

/-- Modelled from the spec: §4.2 — the events driving the scheduler: a
single-item submission, or a flush (explicit, at shutdown, on `predict`,
or standing in for the `maxWaitLatency` timer expiring). -/
inductive SchedOp
  | submit (item : EncodedItem)
  | flush
deriving DecidableEq, Repr

/-- Close the currently queued batch and mark it sent; an empty queue sends
nothing. -/
def sendQueued (s : SchedState) : SchedState :=
  if s.queued.isEmpty then s
  else { s with queued := [], sent := s.sent ++ [s.queued] }

/-- Modelled from the spec: §4.2 flush policy — a submission enqueues the
item at the tail of the queue and sends the batch as soon as the queue
reaches `maxBatchSize`; a flush sends whatever is queued. -/
def sendIfFull (cfg : Config) (s : SchedState) : SchedState :=
  if s.queued.length = cfg.maxBatchSize then sendQueued s else s

def step (cfg : Config) (s : SchedState) : SchedOp → SchedState
  | .submit item =>
      sendIfFull cfg
        { s with
            nextId := s.nextId + 1
            queued := s.queued ++ [⟨s.nextId, item⟩] }
  | .flush => sendQueued s

/-- Run the scheduler from its initial state over a sequence of events. -/
def run (cfg : Config) (ops : List SchedOp) : SchedState :=
  ops.foldl (step cfg) initState

/-- The items submitted by a sequence of events, in submission order. -/
def submittedItems : List SchedOp → List EncodedItem
  | [] => []
  | .submit it :: ops => it :: submittedItems ops
  | .flush :: ops => submittedItems ops

/-- All requests the scheduler has accepted, sent batches first (in send
order, each batch in its internal order) then the still-queued tail. -/
def allReqs (s : SchedState) : List PendingRequest := s.sent.flatten ++ s.queued

/-- Modelled from the spec: §7 error taxonomy as seen on one item's
resultSlot. -/
inductive PredictionError
  | transport
  | timeout
  | decoding
deriving DecidableEq, Repr

/-- Modelled from the spec: §3 — the final content of a resultSlot:
`fulfilled(value)` or `failed(error)`. -/
inductive ItemResult
  | fulfilled (v : Record)
  | failed (e : PredictionError)
deriving DecidableEq, Repr

/-- Modelled from the spec: §6 — outcome of one transport call for a batch:
a wholesale failure (network error or non-success status), or an ordered
batch response. -/
inductive BatchOutcome
  | failure
  | success (resps : List EncodedItem)

/-- Decode one response item of a successful batch into its resultSlot
content. -/
def decodeItemResult (specsOut : List FeatureSpec) (w : EncodedItem) : ItemResult :=
  match decodeRecord specsOut w with
  | .ok v => .fulfilled v
  | .error _ => .failed .decoding

/-- Modelled from the spec: §4.2 — demultiplex one batch's transport
outcome onto its requests' resultSlots: a wholesale failure (including a
response that does not line up with the batch) fails every request with a
transport error; a well-formed response is attributed positionally, each
response item decoded independently. -/
def resolveBatch (specsOut : List FeatureSpec) (batch : List PendingRequest) :
    BatchOutcome → List ItemResult
  | .failure => batch.map fun _ => .failed .transport
  | .success resps =>
      if resps.length = batch.length then resps.map (decodeItemResult specsOut)
      else batch.map fun _ => .failed .transport

/-- Per-item resolution of every sent batch under an item-wise transport:
each request's slot receives exactly `f` of its own item, batch by batch in
send order, positionally within each batch. -/
def resolveWith (f : EncodedItem → ItemResult) (s : SchedState) : List ItemResult :=
  (s.sent.map fun b => b.map fun r => f r.item).flatten

/-- Resolve every sent batch through a batch-level transport function, in
send order. -/
def sendAll (specsOut : List FeatureSpec) (transport : List EncodedItem → BatchOutcome)
    (sent : List (List PendingRequest)) : List ItemResult :=
  (sent.map fun b => resolveBatch specsOut b (transport (b.map PendingRequest.item))).flatten

/-- Result of an eager `predict` call together with how many transport
calls it made. -/
structure PredictTrace where
  result : Except EncodingError (List ItemResult)
  transportCalls : Nat

/-- Modelled from the spec: §4.4 — the eager facade: encode all records
(surfacing any `EncodingError` before any network call), submit them all,
force a flush, send every batch and collect the results in input order. -/
def predict (cfg : Config) (specsIn specsOut : List FeatureSpec)
    (transport : List EncodedItem → BatchOutcome) (rs : List Record) : PredictTrace :=
  match encodeRecords specsIn rs with
  | .error e => ⟨.error e, 0⟩
  | .ok items =>
      let s := run cfg (items.map SchedOp.submit ++ [SchedOp.flush])
      ⟨.ok (sendAll specsOut transport s.sent), s.sent.length⟩

/-- Modelled from the spec: §4.3 and the notebook's `predict_lazy` — a
pull-based sequence over a fixed record list; `cursor` is the consumer's
read position and `submitted` counts how many of the records have been
submitted to the BatchScheduler so far. -/
structure LazyPredictionSequence where
  records : List Record
  cursor : Nat
  submitted : Nat
deriving DecidableEq, Repr

/-- Build the lazy sequence over a fixed record list; construction submits
nothing, so no network call can have occurred yet. -/
def mkLazySequence (records : List Record) : LazyPredictionSequence :=
  ⟨records, 0, 0⟩

/-- Modelled from the spec: §4.3 — before delivering the item at the
cursor, make sure every record up to `windowSize` positions ahead of the
cursor (bounded by the record count) has been submitted to the scheduler. -/
def ensureWindow (window : Nat) (s : LazyPredictionSequence) : LazyPredictionSequence :=
  { s with submitted := max s.submitted (min (s.cursor + window) s.records.length) }

/-- Modelled from the spec: §4.3 — one pull: if records remain, top up the
look-ahead window, deliver the result for the record at the cursor
(`f` abstracts that record's full encode → schedule → transport → decode
round trip) and advance the cursor; an exhausted sequence yields `none`
and stays exhausted. -/
def pull (f : Record → ItemResult) (window : Nat) (s : LazyPredictionSequence) :
    Option ItemResult × LazyPredictionSequence :=
  if h : s.cursor < s.records.length then
    let s' := ensureWindow window s
    (some (f (s.records.get ⟨s.cursor, h⟩)), { s' with cursor := s.cursor + 1 })
  else (none, s)

/-- Pull up to `n` times, collecting the delivered results in order. -/
def pulls (f : Record → ItemResult) (window : Nat) : Nat → LazyPredictionSequence →
    List ItemResult × LazyPredictionSequence
  | 0, s => ([], s)
  | n + 1, s =>
      match pull f window s with
      | (none, s') => ([], s')
      | (some r, s') =>
          let p := pulls f window n s'
          (r :: p.1, p.2)

/-- Modelled from the spec: §2, §3 and the notebook — a Deployment binds an
endpoint identity (url, token) and the discovered input/output
FeatureSpecSets. -/
structure Deployment where
  url : String
  token : String
  feature_specs_in : List FeatureSpec
  feature_specs_out : List FeatureSpec
deriving DecidableEq, Repr

/-- Modelled from the spec: §6 and the notebook's
`sidekick.Deployment(url=..., token=...)` — construction takes only the
endpoint url and token; the feature specs come from the external
feature-spec discovery collaborator, consumed once at construction. -/
def Deployment.create (discover : String → String → List FeatureSpec × List FeatureSpec)
    (url token : String) : Deployment :=
  ⟨url, token, (discover url token).1, (discover url token).2⟩

/-- Modelled from the spec: §4.4 and the notebook's
`deployment.predict_lazy(records)` — returns the lazy sequence
immediately; nothing is submitted until the sequence is pulled. -/
def Deployment.predict_lazy (_d : Deployment) (records : List Record) :
    LazyPredictionSequence :=
  mkLazySequence records

/-- C2: decoding the encoding of any value that is valid for its
FeatureSpec returns the original value exactly, for every supported dtype
(image, numeric, categorical, text, binary) — in particular image
encoding is lossless whenever the pixel list fits the declared shape with
8-bit samples (covering single- and three-channel shapes), numeric values
round-trip exactly, and categorical/text values round-trip as exact
strings. -/
theorem codec_round_trip (v : Value) (spec : FeatureSpec) (w : WireValue)
    (h : encode v spec = .ok w) : decode w spec = .ok v := by
  unfold encode at h
  unfold decode
  cases hd : spec.dtype <;> rw [hd] at h <;> cases v <;>
    simp only [] at h ⊢ <;> try split_ifs at h <;> try simp_all
  all_goals (try cases h) <;> simp_all

/-- C2 witness: a concrete 2×2 single-channel 8-bit image round-trips. -/
theorem codec_round_trip_witness :
    encode (.image [0, 255, 7, 3]) ⟨"image", .image, [2, 2, 1]⟩ = .ok (.bytes [0, 255, 7, 3])
    ∧ decode (.bytes [0, 255, 7, 3]) ⟨"image", .image, [2, 2, 1]⟩ = .ok (.image [0, 255, 7, 3]) :=
  ⟨rfl, codec_round_trip _ _ _ rfl⟩


/-- C3: when the transport call for a batch fails wholesale (network error
or non-success status), every resultSlot of that batch resolves to
`failed(TransportError)`: the resolution list has exactly one entry per
request (no item left unresolved) and every entry is the transport
failure, so no item of a failed batch resolves to a success value. -/
theorem batch_failure_resolves_all (specsOut : List FeatureSpec) (batch : List PendingRequest) :
    (resolveBatch specsOut batch .failure).length = batch.length
    ∧ ∀ r ∈ resolveBatch specsOut batch .failure, r = .failed .transport := by
  constructor
  · simp [resolveBatch]
  · intro r hr
    simp [resolveBatch] at hr
    exact hr.2

theorem batch_failure_resolves_all_witness :
    (resolveBatch [] [⟨0, []⟩, ⟨1, []⟩] .failure).length = 2
    ∧ (ItemResult.failed .transport) ∈ resolveBatch [] [⟨0, []⟩, ⟨1, []⟩] .failure
    ∧ (ItemResult.failed .transport) = .failed .transport := by
  have h := batch_failure_resolves_all [] [⟨0, []⟩, ⟨1, []⟩]
  exact ⟨h.1, by decide, h.2 _ (by decide)⟩

/-- C4: when the transport succeeds but its response carries a per-item
decode failure for one specific item, only that item's resultSlot resolves
to failed; every sibling item whose response decodes still resolves to its
decoded value, and each outcome is attributed positionally to the item it
concerns, never to a different one. -/
theorem per_item_failure_isolated (specsOut : List FeatureSpec)
    (batch : List PendingRequest) (resps : List EncodedItem)
    (hlen : resps.length = batch.length)
    (j : Nat) (wj : EncodedItem) (e : DecodingError)
    (hj : resps[j]? = some wj) (hje : decodeRecord specsOut wj = .error e) :
    (resolveBatch specsOut batch (.success resps)).length = batch.length
    ∧ (resolveBatch specsOut batch (.success resps))[j]? = some (.failed .decoding)
    ∧ ∀ i wi v, i ≠ j → resps[i]? = some wi → decodeRecord specsOut wi = .ok v →
        (resolveBatch specsOut batch (.success resps))[i]? = some (.fulfilled v) := by
  refine ⟨by simp [resolveBatch, hlen], ?_, ?_⟩
  · simp [resolveBatch, hlen, List.getElem?_map, hj, decodeItemResult, hje]
  · intro i wi v hij hwi hv
    simp [resolveBatch, hlen, List.getElem?_map, hwi, decodeItemResult, hv]

theorem per_item_failure_isolated_witness :
    (resolveBatch [⟨"y", Dtype.numeric, [1]⟩] [⟨0, []⟩, ⟨1, []⟩]
      (.success [[("y", .numbers [5])], [("y", .str "bad")]]))[0]? =
      some (.fulfilled [("y", Value.numeric [5])]) :=
  (per_item_failure_isolated [⟨"y", Dtype.numeric, [1]⟩] [⟨0, []⟩, ⟨1, []⟩]
    [[("y", .numbers [5])], [("y", .str "bad")]] rfl 1 [("y", .str "bad")] .malformed
    rfl rfl).2.2 0 [("y", .numbers [5])] [("y", Value.numeric [5])]
    (by decide) rfl rfl



/-- Helper invariant for C5: the queue stays strictly below the batch
size bound and every sent batch respects it. -/
def SizeInv (cfg : Config) (s : SchedState) : Prop :=
  s.queued.length < cfg.maxBatchSize ∧ ∀ b ∈ s.sent, b.length ≤ cfg.maxBatchSize

lemma sendQueued_sizeInv (cfg : Config) (s : SchedState)
    (hpos : 0 < cfg.maxBatchSize)
    (hq : s.queued.length ≤ cfg.maxBatchSize)
    (hs : ∀ b ∈ s.sent, b.length ≤ cfg.maxBatchSize) :
    SizeInv cfg (sendQueued s) := by
  unfold sendQueued
  split_ifs with he
  · have h0 : s.queued = [] := List.isEmpty_iff.mp he
    exact ⟨by rw [h0]; simpa using hpos, hs⟩
  · refine ⟨by simpa using hpos, ?_⟩
    intro b hb
    simp at hb
    rcases hb with hb | hb
    · exact hs b hb
    · subst hb; exact hq

lemma sendIfFull_sizeInv (cfg : Config) (s : SchedState)
    (hpos : 0 < cfg.maxBatchSize)
    (hq : s.queued.length ≤ cfg.maxBatchSize)
    (hs : ∀ b ∈ s.sent, b.length ≤ cfg.maxBatchSize) :
    SizeInv cfg (sendIfFull cfg s) := by
  unfold sendIfFull
  split_ifs with hfull
  · exact sendQueued_sizeInv cfg s hpos hq hs
  · exact ⟨by omega, hs⟩

lemma sizeInv_step (cfg : Config) (hpos : 0 < cfg.maxBatchSize)
    (s : SchedState) (op : SchedOp)
    (h : SizeInv cfg s) : SizeInv cfg (step cfg s op) := by
  obtain ⟨hq, hs⟩ := h
  cases op with
  | flush => exact sendQueued_sizeInv cfg s hpos (Nat.le_of_lt hq) hs
  | submit it =>
      refine sendIfFull_sizeInv cfg _ hpos ?_ hs
      simp
      omega

lemma sizeInv_foldl (cfg : Config) (hpos : 0 < cfg.maxBatchSize) :
    ∀ (ops : List SchedOp) (s : SchedState), SizeInv cfg s →
      SizeInv cfg (ops.foldl (step cfg) s)
  | [], _, h => h
  | op :: ops, s, h => sizeInv_foldl cfg hpos ops _ (sizeInv_step cfg hpos s op h)

lemma sendQueued_sent (s : SchedState) :
    ∃ t, (sendQueued s).sent = s.sent ++ t := by
  unfold sendQueued
  split_ifs
  · exact ⟨[], by simp⟩
  · exact ⟨[s.queued], rfl⟩

lemma sendIfFull_sent (cfg : Config) (s : SchedState) :
    ∃ t, (sendIfFull cfg s).sent = s.sent ++ t := by
  unfold sendIfFull
  split_ifs
  · exact sendQueued_sent s
  · exact ⟨[], by simp⟩

lemma sent_step_append (cfg : Config) (s : SchedState) (op : SchedOp) :
    ∃ t, (step cfg s op).sent = s.sent ++ t := by
  cases op with
  | flush => exact sendQueued_sent s
  | submit it => exact sendIfFull_sent cfg _

lemma sent_foldl_append (cfg : Config) :
    ∀ (ops : List SchedOp) (s : SchedState),
      ∃ t, (ops.foldl (step cfg) s).sent = s.sent ++ t
  | [], s => ⟨[], by simp⟩
  | op :: ops, s => by
      obtain ⟨t1, h1⟩ := sent_step_append cfg s op
      obtain ⟨t2, h2⟩ := sent_foldl_append cfg ops (step cfg s op)
      exact ⟨t1 ++ t2, by simp [List.foldl_cons, h2, h1]⟩

/-- C5: in every reachable scheduler state, under any sequence of
submissions and flushes, no sent batch holds more than `maxBatchSize`
items; and a batch once sent is never re-opened: any further events only
ever append new batches to the sent list, leaving every already-sent batch
unchanged at its position, so no item is ever added to a sent batch. -/
theorem batch_size_and_no_reopen (cfg : Config) (hpos : 0 < cfg.maxBatchSize)
    (ops more : List SchedOp) :
    (∀ b ∈ (run cfg ops).sent, b.length ≤ cfg.maxBatchSize)
    ∧ ∃ t, (more.foldl (step cfg) (run cfg ops)).sent = (run cfg ops).sent ++ t := by
  constructor
  · exact (sizeInv_foldl cfg hpos ops initState ⟨by simpa [initState] using hpos, by simp [initState]⟩).2
  · exact sent_foldl_append cfg more (run cfg ops)

theorem batch_size_and_no_reopen_witness :
    0 < (3 : Nat)
    ∧ ((∀ b ∈ (run ⟨3, 50, 4, 1000⟩ [.submit [], .submit [], .submit [], .submit []]).sent,
          b.length ≤ 3)
      ∧ ∃ t, (List.foldl (step ⟨3, 50, 4, 1000⟩)
            (run ⟨3, 50, 4, 1000⟩ [.submit [], .submit [], .submit [], .submit []]) [.flush]).sent
          = (run ⟨3, 50, 4, 1000⟩ [.submit [], .submit [], .submit [], .submit []]).sent ++ t) :=
  ⟨by decide,
   batch_size_and_no_reopen ⟨3, 50, 4, 1000⟩ (by decide) [.submit [], .submit [], .submit [], .submit []] [.flush]⟩



/-- Number of submissions in an event sequence. -/
def numSubmits : List SchedOp → Nat
  | [] => 0
  | .submit _ :: ops => numSubmits ops + 1
  | .flush :: ops => numSubmits ops

/-- The requests an event sequence creates when the next fresh id is
`start`. -/
def newReqs (start : Nat) : List SchedOp → List PendingRequest
  | [] => []
  | .submit it :: ops => ⟨start, it⟩ :: newReqs (start + 1) ops
  | .flush :: ops => newReqs start ops

lemma newReqs_map_item : ∀ (ops : List SchedOp) (k : Nat),
    (newReqs k ops).map PendingRequest.item = submittedItems ops
  | [], _ => rfl
  | .submit it :: ops, k => by
      simp [newReqs, submittedItems, newReqs_map_item ops]
  | .flush :: ops, k => by
      simp [newReqs, submittedItems, newReqs_map_item ops]

lemma newReqs_map_id : ∀ (ops : List SchedOp) (k : Nat),
    (newReqs k ops).map PendingRequest.id = List.range' k (numSubmits ops)
  | [], _ => rfl
  | .submit it :: ops, k => by
      simp [newReqs, numSubmits, List.range'_succ, newReqs_map_id ops]
  | .flush :: ops, k => by
      simp [newReqs, numSubmits, newReqs_map_id ops]

lemma submittedItems_length : ∀ ops : List SchedOp,
    (submittedItems ops).length = numSubmits ops
  | [] => rfl
  | .submit it :: ops => by simp [submittedItems, numSubmits, submittedItems_length ops]
  | .flush :: ops => by simp [submittedItems, numSubmits, submittedItems_length ops]

lemma allReqs_sendQueued (s : SchedState) : allReqs (sendQueued s) = allReqs s := by
  unfold sendQueued allReqs
  split_ifs with he
  · rfl
  · simp

lemma allReqs_sendIfFull (cfg : Config) (s : SchedState) :
    allReqs (sendIfFull cfg s) = allReqs s := by
  unfold sendIfFull
  split_ifs
  · exact allReqs_sendQueued s
  · rfl

lemma nextId_sendQueued (s : SchedState) : (sendQueued s).nextId = s.nextId := by
  unfold sendQueued
  split_ifs <;> rfl

lemma nextId_sendIfFull (cfg : Config) (s : SchedState) :
    (sendIfFull cfg s).nextId = s.nextId := by
  unfold sendIfFull
  split_ifs
  · exact nextId_sendQueued s
  · rfl

lemma queued_sendQueued (s : SchedState) : (sendQueued s).queued = [] := by
  unfold sendQueued
  split_ifs with he
  · exact List.isEmpty_iff.mp he
  · rfl

lemma allReqs_step (cfg : Config) (s : SchedState) :
    ∀ op : SchedOp, allReqs (step cfg s op) = allReqs s ++ newReqs s.nextId [op]
  | .submit it => by
      show allReqs (sendIfFull cfg _) = _
      rw [allReqs_sendIfFull]
      unfold allReqs newReqs newReqs
      simp
  | .flush => by
      show allReqs (sendQueued s) = _
      rw [allReqs_sendQueued]
      simp [newReqs]

lemma nextId_step (cfg : Config) (s : SchedState) :
    ∀ op : SchedOp, (step cfg s op).nextId = s.nextId + numSubmits [op]
  | .submit it => by
      show (sendIfFull cfg _).nextId = _
      rw [nextId_sendIfFull]
      simp [numSubmits]
  | .flush => by
      show (sendQueued s).nextId = _
      rw [nextId_sendQueued]
      simp [numSubmits]

lemma run_allReqs (cfg : Config) : ∀ (ops : List SchedOp) (s : SchedState),
    allReqs (ops.foldl (step cfg) s) = allReqs s ++ newReqs s.nextId ops
    ∧ (ops.foldl (step cfg) s).nextId = s.nextId + numSubmits ops := by
  intro ops
  induction ops with
  | nil => intro s; simp [newReqs, numSubmits]
  | cons op ops ih =>
      intro s
      have h := ih (step cfg s op)
      cases op with
      | submit it =>
          refine ⟨?_, ?_⟩
          · rw [List.foldl_cons, h.1, allReqs_step, nextId_step]
            simp [newReqs, numSubmits]
          · rw [List.foldl_cons, h.2, nextId_step]
            simp [numSubmits]
            omega
      | flush =>
          refine ⟨?_, ?_⟩
          · rw [List.foldl_cons, h.1, allReqs_step, nextId_step]
            simp [newReqs, numSubmits]
          · rw [List.foldl_cons, h.2, nextId_step]
            simp [numSubmits]

/-- C1 helper: after a final flush the queue is empty and the sent batches
hold exactly the submitted items with consecutive ids. -/
lemma run_flush_sent (cfg : Config) (ops : List SchedOp) :
    (run cfg (ops ++ [.flush])).queued = []
    ∧ (run cfg (ops ++ [.flush])).sent.flatten.map PendingRequest.item = submittedItems ops
    ∧ (run cfg (ops ++ [.flush])).sent.flatten.map PendingRequest.id
        = List.range (submittedItems ops).length := by
  have hrun : run cfg (ops ++ [.flush]) = step cfg (run cfg ops) .flush := by
    unfold run
    rw [List.foldl_append]
    rfl
  have hq : (run cfg (ops ++ [.flush])).queued = [] := by
    rw [hrun]
    exact queued_sendQueued (run cfg ops)
  have hall : allReqs (run cfg (ops ++ [.flush])) = newReqs 0 ops := by
    rw [hrun]
    show allReqs (sendQueued (run cfg ops)) = _
    rw [allReqs_sendQueued]
    have h := run_allReqs cfg ops initState
    simpa [allReqs, initState, run] using h.1
  have hflat : (run cfg (ops ++ [.flush])).sent.flatten = newReqs 0 ops := by
    have := hall
    unfold allReqs at this
    rw [hq] at this
    simpa using this
  refine ⟨hq, ?_, ?_⟩
  · rw [hflat, newReqs_map_item]
  · rw [hflat, newReqs_map_id, submittedItems_length, List.range_eq_range']

/-- C1: across any event sequence ending in a flush, results are delivered
back in exactly the submission order: the nothing-left-queued state lists
the items, batch by batch in send order and positionally within each
batch, in submission order (the ids `0, 1, 2, …` read off in resolution
order), so an item-wise resolution of every batch yields the per-item
results in submission order and never resolves a later-submitted item of
a batch before an earlier one. -/
theorem results_in_submission_order (cfg : Config) (ops : List SchedOp)
    (f : EncodedItem → ItemResult) :
    (run cfg (ops ++ [.flush])).queued = []
    ∧ (run cfg (ops ++ [.flush])).sent.flatten.map PendingRequest.item = submittedItems ops
    ∧ (run cfg (ops ++ [.flush])).sent.flatten.map PendingRequest.id
        = List.range (submittedItems ops).length
    ∧ resolveWith f (run cfg (ops ++ [.flush])) = (submittedItems ops).map f := by
  obtain ⟨hq, hitem, hid⟩ := run_flush_sent cfg ops
  refine ⟨hq, hitem, hid, ?_⟩
  unfold resolveWith
  rw [← List.map_flatten, ← hitem, List.map_map]
  rfl



/-- Seven distinct encoded items used by the seven-item scenario. -/
def items7 : List EncodedItem := (List.range 7).map fun n => [("x", WireValue.numbers [(n : Int)])]

/-- The scenario configuration: `maxBatchSize = 3`, `maxWaitLatency = 50` ms. -/
def cfg7 : Config := ⟨3, 50, 4, 1000⟩

/-- C7: submitting 7 items with `maxBatchSize = 3` and
`maxWaitLatency = 50` ms (the latency timer never fires because the flush
arrives first) sends exactly 3 batches of sizes 3, 3 and 1 in that order,
and all 7 results are returned to the callers in the original submission
order (ids `0..6` read off in resolution order, and any item-wise
resolution equals the submission-ordered map). -/
theorem seven_items_three_batches :
    (run cfg7 (items7.map SchedOp.submit ++ [SchedOp.flush])).sent.map List.length = [3, 3, 1]
    ∧ (run cfg7 (items7.map SchedOp.submit ++ [SchedOp.flush])).sent.flatten.map
        PendingRequest.item = items7
    ∧ (run cfg7 (items7.map SchedOp.submit ++ [SchedOp.flush])).sent.flatten.map
        PendingRequest.id = List.range 7
    ∧ ∀ f : EncodedItem → ItemResult,
        resolveWith f (run cfg7 (items7.map SchedOp.submit ++ [SchedOp.flush])) = items7.map f := by
  refine ⟨by decide, by decide, by decide, ?_⟩
  intro f
  rfl



lemma encodeRecords_error_of_mem (specs : List FeatureSpec) :
    ∀ (rs : List Record) (r : Record) (e : EncodingError),
      r ∈ rs → encodeRecord specs r = .error e →
      ∃ e', encodeRecords specs rs = .error e' := by
  intro rs
  induction rs with
  | nil => intro r e h; simp at h
  | cons a rest ih =>
      intro r e hmem he
      rcases List.mem_cons.mp hmem with h | h
      · subst h
        exact ⟨e, by unfold encodeRecords; rw [he]⟩
      · cases ha : encodeRecord specs a with
        | error e2 => exact ⟨e2, by unfold encodeRecords; rw [ha]⟩
        | ok w =>
            obtain ⟨e', h'⟩ := ih r e h he
            exact ⟨e', by unfold encodeRecords; rw [ha, h']⟩

/-- C6: a record that violates its FeatureSpec surfaces as an
`EncodingError` at submission time, before any network call is made:
`predict` returns the error having made zero transport calls. -/
theorem encoding_error_before_network (cfg : Config)
    (specsIn specsOut : List FeatureSpec) (transport : List EncodedItem → BatchOutcome)
    (rs : List Record) (r : Record) (e : EncodingError)
    (hr : r ∈ rs) (he : encodeRecord specsIn r = .error e) :
    (predict cfg specsIn specsOut transport rs).transportCalls = 0
    ∧ ∃ e', (predict cfg specsIn specsOut transport rs).result = .error e' := by
  obtain ⟨e', h'⟩ := encodeRecords_error_of_mem specsIn rs r e hr he
  unfold predict
  rw [h']
  exact ⟨rfl, ⟨e', rfl⟩⟩

/-- One input feature: a scalar numeric value named `x`. -/
def specX : List FeatureSpec := [⟨"x", .numeric, [1]⟩]

/-- A record valid for `specX`. -/
def goodRec (k : Int) : Record := [("x", Value.numeric [k])]

/-- A record violating `specX`: feature `x` has dtype text, not numeric. -/
def badRec : Record := [("x", Value.text "oops")]

/-- Ten records whose fifth entry violates the FeatureSpec. -/
def recs10 : List Record :=
  [goodRec 0, goodRec 1, goodRec 2, goodRec 3, badRec,
   goodRec 5, goodRec 6, goodRec 7, goodRec 8, goodRec 9]

theorem encoding_error_before_network_witness :
    (predict cfg7 specX [] (fun _ => .failure) recs10).transportCalls = 0
    ∧ ∃ e', (predict cfg7 specX [] (fun _ => .failure) recs10).result = .error e' :=
  encoding_error_before_network cfg7 specX [] (fun _ => .failure) recs10 badRec
    .dtypeMismatch (by decide) rfl

lemma pulls_yields (f : Record → ItemResult) (w : Nat) :
    ∀ (n c sub : Nat) (rs : List Record), rs.length = c + n →
      (pulls f w n ⟨rs, c, sub⟩).1 = (rs.drop c).map f := by
  intro n
  induction n with
  | zero =>
      intro c sub rs h
      have hd : rs.drop c = [] := List.drop_eq_nil_of_le (by omega)
      simp [pulls, hd]
  | succ n ih =>
      intro c sub rs h
      have hc : c < rs.length := by omega
      have hstep := ih (c + 1) (max sub (min (c + w) rs.length)) rs (by omega)
      simp only [pulls, pull, ensureWindow, dif_pos hc]
      rw [hstep, List.drop_eq_getElem_cons hc]
      rfl

/-- C8: for a lazy sequence over 20 records with `lookAheadWindow = 4`,
after the consumer pulls one item at least 4 and at most 5 records have
been submitted to the BatchScheduler (this model submits exactly 4);
pulling all 20 items yields the results for all 20 records in input
order; and in general every successful pull ensures the records up to
`windowSize` beyond the cursor (bounded by the record count) are already
submitted. -/
theorem lazy_lookahead_scenario (f : Record → ItemResult) (rs : List Record)
    (h20 : rs.length = 20) :
    4 ≤ ((pull f 4 (mkLazySequence rs)).2).submitted
    ∧ ((pull f 4 (mkLazySequence rs)).2).submitted ≤ 5
    ∧ (pulls f 4 20 (mkLazySequence rs)).1 = rs.map f
    ∧ ∀ (w : Nat) (s : LazyPredictionSequence) (r : ItemResult)
        (s' : LazyPredictionSequence), pull f w s = (some r, s') →
          min (s.cursor + w) s.records.length ≤ s'.submitted := by
  have hc : (0 : Nat) < rs.length := by omega
  refine ⟨?_, ?_, ?_, ?_⟩
  · simp [pull, mkLazySequence, ensureWindow, dif_pos hc, h20]
  · simp [pull, mkLazySequence, ensureWindow, dif_pos hc, h20]
  · have := pulls_yields f 4 20 0 0 rs (by omega)
    simpa [mkLazySequence] using this
  · intro w s r s' hp
    unfold pull at hp
    split_ifs at hp with hcur
    · have h2 : ({ ensureWindow w s with cursor := s.cursor + 1 } : LazyPredictionSequence) = s' :=
        congrArg Prod.snd hp
      rw [← h2]
      simp [ensureWindow]
    · exact absurd hp (by simp)

/-- Shared oracle for the lazy-sequence witnesses: every record resolves to
an empty fulfilled record. -/
def f0 : Record → ItemResult := fun _ => .fulfilled []

/-- Twenty distinct records for the look-ahead scenario. -/
def rs20 : List Record := (List.range 20).map fun k => [("x", Value.numeric [(k : Int)])]

theorem lazy_lookahead_scenario_witness :
    4 ≤ ((pull f0 4 (mkLazySequence rs20)).2).submitted
    ∧ ((pull f0 4 (mkLazySequence rs20)).2).submitted ≤ 5
    ∧ (pulls f0 4 20 (mkLazySequence rs20)).1 = rs20.map f0 := by
  have h := lazy_lookahead_scenario f0 rs20 (by decide)
  exact ⟨h.1, h.2.1, h.2.2.1⟩

/-- C9: `predict_lazy` returns its sequence immediately with nothing yet
submitted to the scheduler — hence no network call can occur until the
sequence is first pulled; the sequence is finite, yielding exactly one
result per input record in input order, and it is not restartable once
exhausted: a pull past the end yields `none` and leaves the sequence
unchanged (the cursor is never reset), so re-iteration requires a new
sequence over the same records. -/
theorem predict_lazy_seq (d : Deployment) (f : Record → ItemResult) (w : Nat)
    (rs : List Record) :
    (d.predict_lazy rs).submitted = 0
    ∧ (d.predict_lazy rs).cursor = 0
    ∧ (pulls f w rs.length (d.predict_lazy rs)).1 = rs.map f
    ∧ ∀ s : LazyPredictionSequence, s.records.length ≤ s.cursor →
        pull f w s = (none, s) := by
  refine ⟨rfl, rfl, ?_, ?_⟩
  · have := pulls_yields f w rs.length 0 0 rs (by omega)
    simpa [Deployment.predict_lazy, mkLazySequence] using this
  · intro s hs
    unfold pull
    rw [dif_neg (by omega)]

/-- Feature-spec discovery collaborator used by the witnesses: one 2×2
single-channel image feature on both sides. -/
def discover0 : String → String → List FeatureSpec × List FeatureSpec :=
  fun _ _ => ([⟨"image", .image, [2, 2, 1]⟩], [⟨"image", .image, [2, 2, 1]⟩])

/-- A deployment built from only a url and a token. -/
def d0 : Deployment := Deployment.create discover0 "https://a.example" "tok"

/-- Two records for the exhaustion witness. -/
def rs2 : List Record := [[("a", Value.text "p")], [("a", Value.text "q")]]

theorem predict_lazy_seq_witness :
    (pulls f0 3 rs2.length (d0.predict_lazy rs2)).1 = rs2.map f0
    ∧ pull f0 3 ⟨rs2, 2, 2⟩ = (none, ⟨rs2, 2, 2⟩) := by
  have h := predict_lazy_seq d0 f0 3 rs2
  exact ⟨h.2.2.1, h.2.2.2 ⟨rs2, 2, 2⟩ (by decide)⟩

lemma decodeRecord_keys : ∀ (specs : List FeatureSpec) (w : EncodedItem) (r : Record),
    decodeRecord specs w = .ok r → r.map Prod.fst = specs.map FeatureSpec.name := by
  intro specs
  induction specs with
  | nil =>
      intro w r h
      simp [decodeRecord] at h
      subst h
      rfl
  | cons spec rest ih =>
      intro w r h
      unfold decodeRecord at h
      cases hl : w.lookup spec.name with
      | none => rw [hl] at h; exact absurd h (by simp)
      | some wv =>
          rw [hl] at h
          dsimp only at h
          cases hd : decode wv spec with
          | error e => rw [hd] at h; exact absurd h (by simp)
          | ok v =>
              rw [hd] at h
              dsimp only at h
              cases hr : decodeRecord rest w with
              | error e => rw [hr] at h; exact absurd h (by simp)
              | ok vs =>
                  rw [hr] at h
                  have hv : (spec.name, v) :: vs = r := by
                    simpa using h
                  rw [← hv]
                  simp [ih w vs hr]

/-- C10: constructing a Deployment takes only an endpoint url and an
authentication token (the feature specs come from the external discovery
collaborator consumed at construction); the resulting object exposes the
two distinct ordered FeatureSpec lists `feature_specs_in` and
`feature_specs_out`, each element carrying name, dtype and shape; and
every record successfully decoded against the output specs — as each
result pulled from `predict_lazy` is — is keyed exactly by the output
feature names. -/
theorem deployment_surface (discover : String → String → List FeatureSpec × List FeatureSpec)
    (url token : String) :
    (Deployment.create discover url token).url = url
    ∧ (Deployment.create discover url token).token = token
    ∧ (Deployment.create discover url token).feature_specs_in = (discover url token).1
    ∧ (Deployment.create discover url token).feature_specs_out = (discover url token).2
    ∧ ∀ (w : EncodedItem) (r : Record),
        decodeRecord (Deployment.create discover url token).feature_specs_out w = .ok r →
          r.map Prod.fst = ((discover url token).2).map FeatureSpec.name :=
  ⟨rfl, rfl, rfl, rfl, fun w r h => decodeRecord_keys _ w r h⟩

theorem deployment_surface_witness :
    (Deployment.create discover0 "https://a.example" "tok").url = "https://a.example"
    ∧ [("image", Value.image [1, 2, 3, 4])].map Prod.fst
        = ((discover0 "https://a.example" "tok").2).map FeatureSpec.name := by
  have h := deployment_surface discover0 "https://a.example" "tok"
  exact ⟨h.1, h.2.2.2.2 [("image", WireValue.bytes [1, 2, 3, 4])]
    [("image", Value.image [1, 2, 3, 4])] rfl⟩

end Sidekick
